import Mathlib

/-!
Verification of the ProgramIndexer C-function indexer.

This file gives a shallow embedding, in Lean 4, of the parts of the
ProgramIndexer source that the checked claims are about:

* the basic data model (`FilePosition`, `Token`, `FunctionData`) from
  `basetypes.h` / `BaseTypes.cpp`;
* the line-oriented text utilities of `filebuffer.cpp`
  (`burnSpaces`, `getEscNewline`, `handlePreproc`);
* the character-literal scanner `Tokenizer::handleSinQuote` of
  `Tokenizer.cpp`;
* the symbol table `NameSpace::checkForSymbol` of `namespace.cpp`;
* the pending-call holder `FunctHold` and the driver loop
  `FunctFinder::nextFunction` of `functfinder.cpp` / `functfinder.h`;
* the brace-count / local-name-clearing dispatch of
  `Parser::findNextFunction` of `Parser.cpp`.

C++ `std::string` values are modelled as `List Char` where the code
scans text by index (the `filebuffer.cpp` and `handleSinQuote`
routines) and as `String` where strings are only stored and compared
(lexemes, file names).  `std::string::npos` results are modelled with
`Option Nat`.  The C++ `int` line number is modelled as `Int` (no
overflow is modelled).  Exceptions are modelled with `Except`.
-/

/-! ### Basic data model (`basetypes.h`) -/

/-- Model of `Token::TokenType` from `basetypes.h`. -/
inductive TokenType where
  | notoken | identifier | literal | varname | functdecl | functproto
  | functcall | functtypedef | typetoken | typedeftoken | statictoken
  | compound | control | reserved | openparen | closeparen | openbrace
  | closebrace | ampersand | fieldaccess | semicolon | declsymbol
  | othersymbol | tokenEOF
deriving DecidableEq

/-- Model of `Token::ScopeType` from `basetypes.h`. -/
inductive ScopeType where
  | noscope | keyword | globalscope | filescope | localscope
deriving DecidableEq

/-- Model of `Token::ModType` from `basetypes.h`. -/
inductive ModType where
  | nomod | funcref | onearg | twoarg | threearg
deriving DecidableEq

/-- Model of `FilePosition` from `basetypes.h`: a file name and a line number. -/
structure FilePosition where
  fileName : String
  lineNo : Int
deriving DecidableEq

/-- Model of `FilePosition::incrLine`. -/
def FilePosition.incrLine (p : FilePosition) : FilePosition :=
  { p with lineNo := p.lineNo + 1 }

/-- Model of `FilePosition::operator<`: lexicographic by file name, then line. -/
def FilePosition.lt (a b : FilePosition) : Bool :=
  if a.fileName < b.fileName then true
  else if b.fileName < a.fileName then false
  else decide (a.lineNo < b.lineNo)

/-- Model of `Token` from `basetypes.h`. -/
structure Token where
  lexeme : String
  location : FilePosition
  type : TokenType
  scope : ScopeType
  modifier : ModType
deriving DecidableEq

/-- Model of `Token::setScope`. -/
def Token.setScope (t : Token) (s : ScopeType) : Token :=
  { t with scope := s }

/-- Model of `Token::setToTokenMeaning`: copy type, scope and modifier from a model. -/
def Token.setToTokenMeaning (t model : Token) : Token :=
  { t with type := model.type, scope := model.scope, modifier := model.modifier }

/-- The no-token sentinel produced by `Token::setToNoToken`. -/
def Token.noToken : Token :=
  ⟨"", ⟨"", 0⟩, .notoken, .noscope, .nomod⟩

/-- Model of `FunctionData` from `basetypes.h`. -/
structure FunctionData where
  name : String
  location : FilePosition
  declaration : Bool
  caller : String
  refrence : Bool
  filescope : Bool
deriving DecidableEq

/-- The `FunctionData(Token, string)` constructor from `BaseTypes.cpp`. -/
def FunctionData.ofToken (tokendata : Token) (caller : String) : FunctionData :=
  { name := tokendata.lexeme
    location := tokendata.location
    declaration := tokendata.type = .functdecl
    filescope := tokendata.scope = .filescope
    caller := if tokendata.type = .functdecl then tokendata.lexeme else caller
    refrence :=
      if tokendata.type = .functdecl then false
      else tokendata.modifier = .funcref }

/-- Model of `FunctionData::operator<` from `BaseTypes.cpp`, the comparison used to
sort the final function list. -/
def FunctionData.lt (a b : FunctionData) : Bool :=
  if a.name ≠ b.name then decide (a.name < b.name)
  else if a.filescope ≠ b.filescope then a.filescope
  else if a.filescope ∧ a.location.fileName ≠ b.location.fileName then
    decide (a.location.fileName < b.location.fileName)
  else if a.declaration ≠ b.declaration then a.declaration
  else FilePosition.lt a.location b.location

/-! ### The ordering the specification describes (claim C2)

`functionOrderSpec` transcribes the spec sentence: order by `name`; then
`is_file_scope` first; then for file-scope records by `location.file_name`;
then declarations first; then by `location`. -/

/-- The record ordering as the specification words it. -/
def functionOrderSpec (a b : FunctionData) : Bool :=
  if a.name < b.name then true
  else if b.name < a.name then false
  else if a.filescope ∧ ¬ b.filescope then true
  else if b.filescope ∧ ¬ a.filescope then false
  else if a.filescope ∧ a.location.fileName < b.location.fileName then true
  else if a.filescope ∧ b.location.fileName < a.location.fileName then false
  else if a.declaration ∧ ¬ b.declaration then true
  else if b.declaration ∧ ¬ a.declaration then false
  else FilePosition.lt a.location b.location

/-! ### The pending-call holder (`functfinder.h` / `functfinder.cpp`)

`FunctHold` keeps a `std::multimap<Token, string>` (`_holdData`, keyed by
lexeme, iteration in key order with insertion order among equal keys) and
a `std::vector<FunctionData>` (`_releaseData`) used as a stack.  The
multimap is modelled as a list in iteration order; `multimap::insert`
places a new entry at the upper bound of its key's range, which
`holdInsert` reproduces. -/

/-- State of a `FunctHold` object: the hold map in iteration order and the
release cache. -/
structure FunctHoldState where
  holdData : List (Token × String)
  releaseData : List FunctionData
deriving DecidableEq

/-- Model of `std::multimap` insertion: the new entry goes after every entry whose
key (lexeme) is less than or equal to its own. -/
def holdInsert (m : List (Token × String)) (e : Token × String) :
    List (Token × String) :=
  match m with
  | [] => [e]
  | x :: xs =>
    if e.1.lexeme < x.1.lexeme then e :: x :: xs else x :: holdInsert xs e

/-- Model of `FunctHold::doingRelease`: true while the release cache is non-empty. -/
def doingRelease (st : FunctHoldState) : Bool :=
  !st.releaseData.isEmpty

/-- Model of `FunctHold::empty`: all functions have been released. -/
def holdEmpty (st : FunctHoldState) : Bool :=
  st.holdData.isEmpty && !(doingRelease st)

/-- The conversion `moveHoldToCache` applies to one held entry: stamp the
wanted scope onto the token and build a `FunctionData` with the held
caller. -/
def moveConvert (wantScope : ScopeType) (e : Token × String) : FunctionData :=
  FunctionData.ofToken (e.1.setScope wantScope) e.2

/-- Model of `FunctHold::nextRelease`: pop the back of the release cache.  The
source indexes `back()` unconditionally; callers guarantee
`doingRelease`, and the default value is never used under that
precondition. -/
def nextRelease (st : FunctHoldState) : FunctionData × FunctHoldState :=
  (st.releaseData.getLastD (FunctionData.ofToken Token.noToken "NONE"),
   { st with releaseData := st.releaseData.dropLast })

/-- Model of `FunctHold::releaseHold`: for a function declaration, move the
`equal_range` of its lexeme (a contiguous run, in iteration order) to the
release cache with the declaration's scope, and erase it from the map. -/
def releaseHold (st : FunctHoldState) (declToken : Token) : FunctHoldState :=
  if declToken.type = .functdecl then
    { holdData := st.holdData.filter (fun e => !(e.1.lexeme == declToken.lexeme))
      releaseData := st.releaseData ++
        (st.holdData.filter (fun e => e.1.lexeme == declToken.lexeme)).map
          (moveConvert declToken.scope) }
  else st

/-- Model of `FunctHold::holdIfNeeded`: hold a no-scope function call; throw
`DouFuncRelException` on an attempted hold during a release; ignore every
other token. -/
def holdIfNeeded (st : FunctHoldState) (testToken : Token)
    (callFunct : String) : Except Unit (Bool × FunctHoldState) :=
  if testToken.type ≠ .functcall ∨ testToken.scope ≠ .noscope then
    .ok (false, st)
  else if doingRelease st then .error ()
  else .ok (true, { st with holdData := holdInsert st.holdData (testToken, callFunct) })

/-- Model of `FunctHold::procEOF`: release every remaining hold with global scope,
then return the next cached record, or the no-token record when nothing
is left. -/
def procEOF (st : FunctHoldState) : FunctionData × FunctHoldState :=
  let st1 :=
    if st.holdData.isEmpty then st
    else
      { holdData := []
        releaseData := st.releaseData ++
          st.holdData.map (moveConvert .globalscope) }
  if holdEmpty st1 then (FunctionData.ofToken Token.noToken "NONE", st1)
  else nextRelease st1

/-- Model of `FunctFinder::haveEOF` (`functfinder.h`): the driver is at EOF when
the recognizer is at EOF and the holder is empty.  The recognizer is
modelled by the list of function tokens it still has to yield, so its
EOF flag is emptiness of that list. -/
def finderHaveEOF (parserTokens : List Token) (st : FunctHoldState) : Bool :=
  parserTokens.isEmpty && holdEmpty st

/-- The token-processing loop inside `FunctFinder::nextFunction`: pull
recognizer tokens until one can be returned, holding no-scope calls along
the way; at recognizer EOF fall through to `procEOF`. -/
def finderLoop (tokens : List Token) (currFunction : String)
    (st : FunctHoldState) :
    Except Unit (FunctionData × List Token × String × FunctHoldState) :=
  match tokens with
  | [] =>
    let r := procEOF st
    .ok (r.1, [], currFunction, r.2)
  | t :: rest =>
    if t.type = .functdecl then
      .ok (FunctionData.ofToken t t.lexeme, rest, t.lexeme, releaseHold st t)
    else
      match holdIfNeeded st t currFunction with
      | .error e => .error e
      | .ok (true, st1) => finderLoop rest currFunction st1
      | .ok (false, st1) => .ok (FunctionData.ofToken t currFunction, rest, currFunction, st1)

/-- Model of `FunctFinder::nextFunction`: yield a pending release if one exists,
otherwise run the token loop. -/
def finderNextFunction (tokens : List Token) (currFunction : String)
    (st : FunctHoldState) :
    Except Unit (FunctionData × List Token × String × FunctHoldState) :=
  if doingRelease st then
    let r := nextRelease st
    .ok (r.1, tokens, currFunction, r.2)
  else finderLoop tokens currFunction st

/-- Repeatedly call `nextRelease` while `doingRelease` holds, collecting
the released records in the order a caller receives them. -/
def drainReleases (st : FunctHoldState) : List FunctionData × FunctHoldState :=
  if h : st.releaseData.isEmpty then ([], st)
  else
    let r := nextRelease st
    let d := drainReleases r.2
    (r.1 :: d.1, d.2)
termination_by st.releaseData.length
decreasing_by
  simp only [nextRelease, List.length_dropLast]
  cases hl : st.releaseData with
  | nil => simp [hl] at h
  | cons x xs => simp [hl]

/-- A concrete unresolved function call used by the holder witnesses. -/
def sampleCall : Token :=
  ⟨"f", ⟨"a.c", 3⟩, .functcall, .noscope, .nomod⟩

/-- A matching declaration token for the C10 witness. -/
def sampleDecl : Token :=
  ⟨"f", ⟨"a.c", 9⟩, .functdecl, .globalscope, .nomod⟩

/-! ### Scope discipline of the recognizer (claim C7)

`Parser::findNextFunction` (`Parser.cpp`) dispatches on the current
token's type.  Only the `openbrace` and `closebrace` arms touch
`_braceCount`, and `clearLocalNames` is invoked in exactly one place: the
`closebrace` arm, guarded by `_braceCount == 1`.  `braceDispatch` records,
for each token type the main loop dispatches on, the new brace count and
whether `clearLocalNames` is invoked.  (Braces consumed inside
`procCombType` are burned with a private counter and are deliberately not
part of this dispatch; the source even rewrites an early-terminating
`}` to `;` so that `_braceCount` is not disturbed.) -/

/-- Effect of one `findNextFunction` dispatch step on the recognizer's
brace count and on the symbol table's local-name collection. -/
structure BraceEffect where
  braceCount : Nat
  clearsLocals : Bool
deriving DecidableEq

/-- The `_braceCount` / `clearLocalNames` part of the `findNextFunction`
token dispatch. -/
def braceDispatch (t : TokenType) (braceCount : Nat) : BraceEffect :=
  match t with
  | .openbrace => ⟨braceCount + 1, false⟩
  | .closebrace =>
    ⟨if braceCount > 0 then braceCount - 1 else braceCount,
     braceCount = 1⟩
  | _ => ⟨braceCount, false⟩

/-! ### Text scanning utilities (`filebuffer.cpp`)

Lines are modelled as `List Char`.  The `std::string` search primitives
(`find_first_of`, `find_first_not_of`, `find_last_not_of`) return an
index or `npos`, modelled as `Option Nat`.  `findFirstIdxP` is the index
of the first character satisfying a predicate. -/

/-- The whitespace set `" \t"` burned by `FileBuffer::burnSpaces`. -/
def isSpaceTab (c : Char) : Bool := c == ' ' || c == '\t'

/-- Index of the first character satisfying `p`. -/
def findFirstIdxP (p : Char → Bool) : List Char → Option Nat
  | [] => none
  | c :: cs => if p c then some 0 else (findFirstIdxP p cs).map (· + 1)

/-- Model of `std::string::find_first_of(target, start)` for a single character. -/
def findFirstOfFrom (s : List Char) (target : Char) (start : Nat) : Option Nat :=
  (findFirstIdxP (fun c => c == target) (s.drop start)).map (· + start)

/-- Model of `std::string::find_first_not_of(set, start)`; `member` decides set
membership. -/
def findFirstNotOfFrom (s : List Char) (member : Char → Bool) (start : Nat) :
    Option Nat :=
  (findFirstIdxP (fun c => !(member c)) (s.drop start)).map (· + start)

/-- Model of `FileBuffer::burnSpaces`: first position at or after `start` that is
not a space or tab. -/
def burnSpaces (s : List Char) (start : Nat) : Option Nat :=
  findFirstNotOfFrom s isSpaceTab start

/-- Model of `std::string::find_last_not_of(set)`: the last index whose character
is outside the set, found by scanning the reversed string. -/
def findLastNotOf (s : List Char) (member : Char → Bool) : Option Nat :=
  match findFirstIdxP (fun c => !(member c)) s.reverse with
  | none => none
  | some i => some (s.length - 1 - i)

/-- Model of `std::string::find_last_not_of(set, pos)`: same, restricted to
indices at most `pos`. -/
def findLastNotOfUpTo (s : List Char) (member : Char → Bool) (pos : Nat) :
    Option Nat :=
  findLastNotOf (s.take (pos + 1)) member

/-- Model of `FileBuffer::getEscNewline` (`filebuffer.cpp`): position of the escape
character when the line ends (ignoring trailing spaces and tabs) with an
escaped newline; inside a string literal (`multiLineQuote`) an even run of
trailing backslashes is literal and does not escape the newline. -/
def getEscNewline (buffer : List Char) (multiLineQuote : Bool) : Option Nat :=
  match findLastNotOf buffer isSpaceTab with
  | none => none
  | some index =>
    if buffer.getD index ' ' ≠ '\\' then none
    else if ¬ multiLineQuote then some index
    else
      match findLastNotOfUpTo buffer (fun c => c == '\\') index with
      | none => if (index + 1) % 2 = 1 then some index else none
      | some testPos => if (index - testPos) % 2 = 1 then some index else none

/-- Model of `FileBuffer::hasEscNewline`. -/
def hasEscNewline (buffer : List Char) (multiLineQuote : Bool) : Bool :=
  (getEscNewline buffer multiLineQuote).isSome

/-! ### Claim C6: escaped newlines inside string literals

`trailingBackslashCount` is the number the claim talks about: the
consecutive backslashes ending the line once trailing spaces and tabs
are ignored. -/

/-- The number of consecutive backslashes ending the line, after ignoring
trailing spaces and tabs. -/
def trailingBackslashCount (buffer : List Char) : Nat :=
  ((buffer.reverse.dropWhile isSpaceTab).takeWhile (fun c => c == '\\')).length

/-! ### Preprocessor line directives (`FileBuffer::handlePreproc`, claim C1) -/

/-- C `isdigit`. -/
def isDigitChar (c : Char) : Bool := c.isDigit

/-- Model of `atoi` on the extracted digit run. -/
def atoiDigits (l : List Char) : Nat :=
  l.foldl (fun a c => a * 10 + (c.toNat - '0'.toNat)) 0

/-- Model of `std::string::substr(start, len)`. -/
def substrList (s : List Char) (start len : Nat) : List Char :=
  (s.drop start).take len

/-- Outcome of `FileBuffer::handlePreproc`: the possibly updated
authoritative source coordinate `_bufferPosition`, the `_haveWrap` flag,
and whether the "preprocessor directive ignored" warning was printed. -/
structure PreprocResult where
  bufferPosition : FilePosition
  haveWrap : Bool
  warning : Bool
deriving DecidableEq

/-- The location-extraction scan inside `FileBuffer::handlePreproc`
(`filebuffer.cpp`): hash, digits, then a quoted non-empty file name whose
closing quote must be the very last character of the line.  The scan
positions `start` and `end` are declared `unsigned short`, so
`string::npos` truncates to `0xFFFF` on assignment and a later comparison
against `npos` is always false; in particular
`haveLocation = (end == string::npos)` after burning the whitespace
behind the closing quote can never hold, and only the
`end == fileDataLine.length()` branch accepts a location.  When one of
the first three searches fails, the source keeps going with the
truncated index `0xFFFF` and reads the string out of range; those
branches return `none` here, and the claim theorem restricts its
negative branch to lines on which the scan stays inside the line
(`preprocScanInBounds`).  Returns the file name and the
already-decremented line number when every check passes. -/
def extractLocation (line : List Char) : Option (List Char × Int) :=
  match findFirstOfFrom line '#' 0 with
  | none => none
  | some hashPos =>
    match burnSpaces line (hashPos + 1) with
    | none => none -- source reads out of range at the truncated npos
    | some start =>
      if isDigitChar (line.getD start ' ') then
        match findFirstNotOfFrom line isDigitChar start with
        | none => none -- source reads out of range at the truncated npos
        | some e =>
          let lineNo : Int := (atoiDigits (substrList line start (e - start)) : Int) - 1
          match burnSpaces line e with
          | none => none -- source reads out of range at the truncated npos
          | some s2 =>
            if line.getD s2 ' ' = '"' then
              match findFirstOfFrom line '"' (s2 + 1) with
              -- no closing quote: `end` holds the truncated npos, `end++`
              -- wraps to 0, and the burn from 0 finds the hash, so
              -- `haveLocation` still ends up false
              | none => none
              | some e2 =>
                if e2 ≤ s2 + 1 then none
                else
                  let fileName := substrList line (s2 + 1) (e2 - (s2 + 1))
                  -- `end == fileDataLine.length()` accepts; otherwise
                  -- `end = burnSpaces(...)` stores a 16-bit value that can
                  -- never equal `string::npos`, so `haveLocation` is false
                  -- whether or not only whitespace follows the quote
                  if e2 + 1 = line.length then some (fileName, lineNo)
                  else none
            else none
      else none

/-- Within `FileBuffer::handlePreproc` every `!= string::npos` guard
compares a truncated 16-bit position, which can never equal `npos`: when
one of the first three searches fails, the guard still passes and the
program indexes the string at position `0xFFFF`, out of range.  This
predicate holds exactly when the scan never runs off the end that way:
the line has a hash, a non-whitespace character follows it, and if that
character is a digit then the digit run ends before the end of the line
and is itself followed by a non-whitespace character. -/
def preprocScanInBounds (line : List Char) : Bool :=
  match findFirstOfFrom line '#' 0 with
  | none => false
  | some hashPos =>
    match burnSpaces line (hashPos + 1) with
    | none => false
    | some start =>
      if isDigitChar (line.getD start ' ') then
        match findFirstNotOfFrom line isDigitChar start with
        | none => false
        | some e =>
          match burnSpaces line e with
          | none => false
          | some _ => true
      else true

/-- Model of `FileBuffer::handlePreproc`: directives wrapped from or onto another
line are never locations; otherwise a successful extraction resets
`_bufferPosition`, and anything else prints the "ignored" warning (also
when the directive itself wraps). -/
def handlePreproc (line : List Char) (bufferPosition : FilePosition)
    (haveWrapIn : Bool) : PreprocResult :=
  let haveWrapOut := hasEscNewline line false
  if haveWrapIn then ⟨bufferPosition, haveWrapOut, false⟩
  else if haveWrapOut then ⟨bufferPosition, haveWrapOut, true⟩
  else
    match extractLocation line with
    | some r => ⟨⟨String.mk r.1, r.2⟩, haveWrapOut, false⟩
    | none => ⟨bufferPosition, haveWrapOut, true⟩

/-- The directive shape the program accepts: hash, digits `ds`, quoted
path `p`, with only whitespace between the pieces, and the closing quote
as the very last character of the line (the `unsigned short` positions
make the source reject anything after it, even trailing whitespace). -/
def IsLineDirective (line ds p : List Char) : Prop :=
  ∃ ws1 ws2 ws3,
    line = ws1 ++ '#' :: (ws2 ++ ds ++ ws3 ++ '"' :: (p ++ ['"'])) ∧
    (∀ x ∈ ws1, isSpaceTab x = true) ∧ (∀ x ∈ ws2, isSpaceTab x = true) ∧
    (∀ x ∈ ws3, isSpaceTab x = true) ∧
    ds ≠ [] ∧ (∀ x ∈ ds, isDigitChar x = true) ∧ p ≠ [] ∧ '"' ∉ p

/-! ### The character-literal scanner (`Tokenizer::handleSinQuote`, claim C5) -/

/-- The escape characters accepted at lexeme position 2
(`Tokenizer.cpp`, case 3 of `handleSinQuote`). -/
def isEscSimple (c : Char) : Bool :=
  c == 'a' || c == 'b' || c == 'f' || c == 'n' || c == 'r' || c == 't' ||
  c == 'v' || c == '\\' || c == '?' || c == '"' || c == '\''

/-- The hexadecimal digits accepted after `'\x'` (cases 4 and 5): decimal
digits and uppercase `A`–`F` only. -/
def isUpperHex (c : Char) : Bool :=
  isDigitChar c || c == 'A' || c == 'B' || c == 'C' || c == 'D' ||
  c == 'E' || c == 'F'

/-- The length-driven state machine of `Tokenizer::handleSinQuote`
(`Tokenizer.cpp`), for `_charPtr = 0` on a buffer holding the whole
lookahead (no line wrap pending).  `len` is the lexeme length before the
loop increments it; the flags mirror `haveEscape`, `haveHex`, `haveOct`
and `haveZero`; `some n` is `haveValue` with lexeme length `n`, `none` is
`haveError`.  The loop body runs at most six times(the `default` case
errors at length 7), so a fuel of 8 is never the deciding bound. -/
def handleSinQuoteLoop (buffer : List Char) (fuel : Nat) (len : Nat)
    (esc hex oct zero : Bool) : Option Nat :=
  match fuel with
  | 0 => none
  | fuel + 1 =>
    let length := len + 1
    if buffer.length ≤ length - 1 then none
    else
      let testChar := buffer.getD (length - 1) ' '
      if length = 2 then
        if testChar = '\'' then none
        else if testChar = '\\' then
          handleSinQuoteLoop buffer fuel length true hex oct zero
        else handleSinQuoteLoop buffer fuel length esc hex oct zero
      else if length = 3 then
        if esc = false then
          if testChar = '\'' then some length else none
        else if testChar = '0' then
          handleSinQuoteLoop buffer fuel length esc hex oct true
        else if isDigitChar testChar then
          handleSinQuoteLoop buffer fuel length esc hex true zero
        else if testChar = 'x' then
          handleSinQuoteLoop buffer fuel length esc true oct zero
        else if isEscSimple testChar then
          handleSinQuoteLoop buffer fuel length esc hex oct zero
        else none
      else if length = 4 then
        if oct || (zero && isDigitChar testChar) then
          if isDigitChar testChar then
            handleSinQuoteLoop buffer fuel length esc hex true zero
          else none
        else if hex then
          if isUpperHex testChar then
            handleSinQuoteLoop buffer fuel length esc hex oct zero
          else none
        else if esc && (testChar = '\'') then some length
        else none
      else if length = 5 then
        if oct then
          if isDigitChar testChar then
            handleSinQuoteLoop buffer fuel length esc hex oct zero
          else none
        else if hex then
          if isUpperHex testChar then
            handleSinQuoteLoop buffer fuel length esc hex oct zero
          else none
        else none
      else if length = 6 then
        if (hex || oct) && (testChar = '\'') then some length else none
      else none

/-- Model of `Tokenizer::handleSinQuote`: scan from the opening quote; `some n`
means a character literal of `n` characters is accepted. -/
def handleSinQuote (buffer : List Char) : Option Nat :=
  handleSinQuoteLoop buffer 8 1 false false false false

/-- Model of `Tokenizer::_declChars`. -/
def declChars : List Char := ['*', '[', ']', ',', ' ', '\t']

/-- The token type `Tokenizer::handleOtherChars` assigns, keyed by the
leading character. -/
def handleOtherCharsType (c : Char) : TokenType :=
  if declChars.contains c then .declsymbol else .othersymbol

/-- Token type the lexer produces for a single-quote sequence: a
`literal` when the machine accepts, otherwise whatever
`handleOtherChars` gives the quote character. -/
def handleSinQuoteType (buffer : List Char) : TokenType :=
  match handleSinQuote buffer with
  | some _ => .literal
  | none => handleOtherCharsType '\''

/-- The character-literal forms the scanner accepts, as amended from the
claim: `'c'` for `c` neither quote nor backslash; `'\c'` with `c` in the
escape set or `c = '0'`; `'\x'` followed by exactly two hexadecimal
digits drawn from `0`–`9` and uppercase `A`–`F`; and a backslash followed
by exactly three decimal digits. -/
def charLitAccepts : List Char → Option Nat
  | '\'' :: c :: rest =>
    if c = '\'' then none
    else if c = '\\' then
      match rest with
      | e :: '\'' :: _ => if isEscSimple e || e = '0' then some 4 else none
      | 'x' :: h1 :: h2 :: '\'' :: _ =>
        if isUpperHex h1 && isUpperHex h2 then some 6 else none
      | d1 :: d2 :: d3 :: '\'' :: _ =>
        if isDigitChar d1 && isDigitChar d2 && isDigitChar d3 then some 6
        else none
      | _ => none
    else
      match rest with
      | '\'' :: _ => some 3
      | _ => none
  | _ => none

/-- The acceptance the claim asserts as stated: also single- and
two-digit octal escapes, and any hexadecimal digits (lowercase
included). -/
def isOctDigit (c : Char) : Bool := '0' ≤ c && c ≤ '7'

/-- Hexadecimal digits as C defines them (claim-side). -/
def isHexDigit (c : Char) : Bool :=
  c.isDigit || ('a' ≤ c && c ≤ 'f') || ('A' ≤ c && c ≤ 'F')

/-- The claim's stated forms: `'c'`, `'\c'` with `c` in the escape set,
`'\0'`, a backslash followed by one to three octal digits, or `'\x'`
followed by two hexadecimal digits. -/
def charLitClaimForm : List Char → Bool
  | '\'' :: '\\' :: rest =>
    match rest with
    | [e, '\''] => isEscSimple e || e = '0' || isOctDigit e
    | ['x', h1, h2, '\''] => isHexDigit h1 && isHexDigit h2
    | [d1, d2, '\''] => isOctDigit d1 && isOctDigit d2
    | [d1, d2, d3, '\''] => isOctDigit d1 && isOctDigit d2 && isOctDigit d3
    | _ => false
  | ['\'', c, '\''] => ¬ c = '\'' && ¬ c = '\\'
  | _ => false

/-! ### The symbol table (`NameSpace::checkForSymbol`, claim C8) -/

/-- The three token collections of `NameSpace` (`namespace.h`), each a
set keyed by lexeme, modelled as lists with unique lexemes. -/
structure NameSpaceState where
  keyList : List Token
  globalList : List Token
  localList : List Token
deriving DecidableEq

/-- Model of `TokenSet::find`: tokens compare by lexeme alone. -/
def findTok (l : List Token) (key : String) : Option Token :=
  l.find? (fun x => x.lexeme == key)

/-- Model of `NameSpace::haveVarToken` (`namespace.h`). -/
def haveVarToken (t : Token) : Bool :=
  t.type == .varname || t.type == .typetoken

/-- Model of `NameSpace::haveTypeToken` (`namespace.h`). -/
def haveTypeToken (t : Token) : Bool :=
  t.type == .typetoken || t.type == TokenType.functtypedef

/-- The global-list part of `NameSpace::checkForSymbol`
(`namespace.cpp`, entered when the name is not a keyword and not a
locally defined typedef); `localVar` records that the name is a local
variable shadowing whatever the global list holds. -/
def checkGlobal (ns : NameSpaceState) (testToken : Token) (localVar : Bool) :
    Token :=
  match findTok ns.globalList testToken.lexeme with
  | none => testToken.setScope .noscope
  | some g =>
    if haveTypeToken g then
      if localVar = false then testToken.setToTokenMeaning g else testToken
    else if haveVarToken g = false then
      if g.type ≠ .functproto ∨ g.scope ≠ .filescope then
        testToken.setScope g.scope
      else testToken.setScope .noscope
    else testToken

/-- Model of `NameSpace::checkForSymbol` (`namespace.cpp`): resolve an identifier
against keywords, then locals, then globals, rewriting the token's
meaning in place (here: returning the rewritten token). -/
def checkForSymbol (ns : NameSpaceState) (testToken : Token) : Token :=
  match findTok ns.keyList testToken.lexeme with
  | some k => testToken.setToTokenMeaning k
  | none =>
    match findTok ns.localList testToken.lexeme with
    | some l =>
      if l.type = .typetoken then testToken.setToTokenMeaning l
      else checkGlobal ns testToken true
    | none => checkGlobal ns testToken false

/-! ### Theorems -/

/-- C2: the comparison operator used for the final sort orders records by
name ascending; for equal names, file-scope before global-scope; for two
file-scope records with equal names, by the file name of their location;
then declarations before non-declarations; and finally by location. -/
theorem functionData_lt_eq_spec (a b : FunctionData) :
    FunctionData.lt a b = functionOrderSpec a b := by
  unfold FunctionData.lt functionOrderSpec
  rcases lt_trichotomy a.name b.name with h | h | h
  · simp [ne_of_lt h, h]
  · simp only [h, lt_irrefl, if_false, ne_eq, not_true_eq_false,
      Decidable.not_not, if_true]
    cases hfa : a.filescope <;> cases hfb : b.filescope <;>
        simp only [hfa, hfb, ne_eq, not_false_eq_true, not_true_eq_false,
          Bool.true_eq_false, Bool.false_eq_true, false_and, true_and,
          and_true, and_false, if_true, if_false, ite_false, ite_true,
          false_ne_true, if_neg, not_false_iff, Decidable.not_not]
    · rcases hd : a.declaration <;> rcases hd2 : b.declaration <;>
        simp [hd, hd2]
    · rcases lt_trichotomy a.location.fileName b.location.fileName with h2 | h2 | h2
      · simp [ne_of_lt h2, h2]
      · simp only [h2, lt_irrefl, if_false, ne_eq, not_true_eq_false,
          Decidable.not_not, if_true, and_false, false_and, true_and, and_true]
        rcases hd : a.declaration <;> rcases hd2 : b.declaration <;>
          simp [hd, hd2]
      · simp [Ne.symm (ne_of_lt h2), h2, not_lt.mpr (le_of_lt h2)]
  · simp [Ne.symm (ne_of_lt h), h, not_lt.mpr (le_of_lt h)]

/-- Popping the back of a non-empty list after its `dropLast` restores it. -/
theorem dropLast_append_getLastD {α : Type} (l : List α) (d : α) (h : l ≠ []) :
    l.dropLast ++ [l.getLastD d] = l := by
  induction l with
  | nil => exact absurd rfl h
  | cons x xs ih =>
    cases xs with
    | nil => rfl
    | cons y ys =>
      simp only [List.dropLast_cons₂, List.getLastD_cons, List.cons_append]
      rw [← List.getLastD_cons d y ys]
      rw [ih (by simp)]

/-- Draining the release cache returns its contents back-to-front and
leaves the hold map untouched. -/
theorem drainReleases_eq (hd : List (Token × String)) (rd : List FunctionData) :
    drainReleases ⟨hd, rd⟩ = (rd.reverse, ⟨hd, []⟩) := by
  induction rd using List.reverseRecOn with
  | nil => rw [drainReleases]; rfl
  | append_singleton xs x ih =>
    rw [drainReleases]
    simp only [nextRelease, List.getLastD_concat, List.dropLast_concat,
      List.isEmpty_iff, List.append_eq_nil, and_false, dite_false]
    simp [ih]

/-- When something remains to release, `procEOF` reduces to popping the
cache extended with every held entry stamped `globalscope`. -/
theorem procEOF_nonempty (hd : List (Token × String)) (rd : List FunctionData)
    (h : hd ≠ [] ∨ rd ≠ []) :
    procEOF ⟨hd, rd⟩ =
      nextRelease ⟨[], rd ++ hd.map (moveConvert .globalscope)⟩ := by
  cases hd with
  | nil =>
    cases rd with
    | nil => simp at h
    | cons f fs => simp [procEOF, holdEmpty, doingRelease]
  | cons e es =>
    show (if holdEmpty ⟨[], rd ++ (e :: es).map (moveConvert .globalscope)⟩
        then _ else _) = _
    rw [if_neg (by simp [holdEmpty, doingRelease])]
    simp

/-- C3: once the driver's `eof()` returns true the hold map and the
resolved stack are both empty; and at recognizer EOF `procEOF` moves
every entry still held to the resolved stack with scope `globalscope`
before any of them is returned (the returned record plus the remaining
stack account for exactly the old stack plus every held entry). -/
theorem callHolder_drain (pe : List Token) (st : FunctHoldState) :
    (finderHaveEOF pe st = true → st.holdData = [] ∧ st.releaseData = []) ∧
    (procEOF st).2.holdData = [] ∧
    (st.holdData ≠ [] ∨ st.releaseData ≠ [] →
      (procEOF st).2.releaseData ++ [(procEOF st).1] =
        st.releaseData ++ st.holdData.map (moveConvert .globalscope)) := by
  obtain ⟨hd, rd⟩ := st
  refine ⟨?_, ?_, ?_⟩
  · intro h
    cases hd <;> cases rd <;>
      simp_all [finderHaveEOF, holdEmpty, doingRelease]
  · by_cases hne : hd ≠ [] ∨ rd ≠ []
    · rw [procEOF_nonempty hd rd hne]
      rfl
    · push_neg at hne
      obtain ⟨h1, h2⟩ := hne
      subst h1; subst h2; rfl
  · intro hne
    rw [procEOF_nonempty hd rd hne]
    simp only [nextRelease]
    refine dropLast_append_getLastD _ _ ?_
    rcases hne with h | h <;> simp [h]

/-- Witness for C3: a holder with one held call and an empty stack, and an
empty holder at driver EOF. -/
theorem callHolder_drain_witness :
    ((FunctHoldState.mk [] []).holdData = [] ∧
      (FunctHoldState.mk [] []).releaseData = []) ∧
    (procEOF ⟨[(sampleCall, "main")], []⟩).2.releaseData ++
        [(procEOF ⟨[(sampleCall, "main")], []⟩).1] =
      [] ++ [(sampleCall, "main")].map (moveConvert .globalscope) :=
  ⟨(callHolder_drain [] ⟨[], []⟩).1 (by decide),
   (callHolder_drain [] ⟨[(sampleCall, "main")], []⟩).2.2 (Or.inl (by decide))⟩

/-- C4: `holdIfNeeded` inserts the pair and returns true for a no-scope
function call when no release is in progress; throws the double-release
error for a no-scope function call while the resolved stack is
non-empty; and returns false leaving the holder unchanged for any token
that is not a no-scope function call. -/
theorem holdIfNeeded_spec (st : FunctHoldState) (t : Token) (c : String) :
    (t.type = .functcall → t.scope = .noscope → st.releaseData = [] →
      holdIfNeeded st t c =
        .ok (true, ⟨holdInsert st.holdData (t, c), st.releaseData⟩)) ∧
    (t.type = .functcall → t.scope = .noscope → st.releaseData ≠ [] →
      holdIfNeeded st t c = .error ()) ∧
    (¬(t.type = .functcall ∧ t.scope = .noscope) →
      holdIfNeeded st t c = .ok (false, st)) := by
  refine ⟨?_, ?_, ?_⟩
  · intro h1 h2 h3
    simp [holdIfNeeded, h1, h2, doingRelease, h3]
  · intro h1 h2 h3
    simp [holdIfNeeded, h1, h2, doingRelease, List.isEmpty_eq_false.mpr h3]
  · intro h
    rw [not_and_or] at h
    simp only [holdIfNeeded, ne_eq]
    rw [if_pos h]

/-- Witness for C4: all three behaviours at concrete inputs. -/
theorem holdIfNeeded_spec_witness :
    holdIfNeeded ⟨[], []⟩ sampleCall "m" = .ok (true, ⟨[(sampleCall, "m")], []⟩) ∧
    holdIfNeeded ⟨[], [moveConvert .globalscope (sampleCall, "x")]⟩ sampleCall "m" =
      .error () ∧
    holdIfNeeded ⟨[], []⟩ (sampleCall.setScope .globalscope) "m" =
      .ok (false, ⟨[], []⟩) := by
  refine ⟨?_, ?_, ?_⟩
  · have h := (holdIfNeeded_spec ⟨[], []⟩ sampleCall "m").1 rfl rfl rfl
    simpa using h
  · exact (holdIfNeeded_spec _ sampleCall "m").2.1 rfl rfl (by decide)
  · exact (holdIfNeeded_spec ⟨[], []⟩ (sampleCall.setScope .globalscope) "m").2.2
      (by decide)

/-- C9: calling the driver's `nextFunction` with the recognizer at EOF and
an empty holder does not fail: it returns the record built from the
no-token sentinel, with empty name, empty file position, not a
declaration, not file scope, and caller "NONE". -/
theorem nextFunction_at_eof (currFunction : String) :
    finderNextFunction [] currFunction ⟨[], []⟩ =
      .ok (⟨"", ⟨"", 0⟩, false, "NONE", false, false⟩, [], currFunction, ⟨[], []⟩) :=
  rfl

/-- C10: a batch of held records released together by `releaseHold` is
returned by successive `nextRelease` calls in the reverse of hold-map
iteration order, and likewise for the batch `procEOF` releases; the
non-matching entries stay held. -/
theorem release_batches_lifo (holdData : List (Token × String)) (decl : Token)
    (h : decl.type = .functdecl) :
    (drainReleases (releaseHold ⟨holdData, []⟩ decl)).1 =
      ((holdData.filter (fun e => e.1.lexeme == decl.lexeme)).map
        (moveConvert decl.scope)).reverse ∧
    (drainReleases (releaseHold ⟨holdData, []⟩ decl)).2.holdData =
      holdData.filter (fun e => !(e.1.lexeme == decl.lexeme)) ∧
    (holdData ≠ [] →
      (procEOF ⟨holdData, []⟩).1 ::
          (drainReleases (procEOF ⟨holdData, []⟩).2).1 =
        (holdData.map (moveConvert .globalscope)).reverse) := by
  refine ⟨?_, ?_, ?_⟩
  · simp [releaseHold, h, drainReleases_eq]
  · simp [releaseHold, h, drainReleases_eq]
  · intro hne
    simp only [procEOF, List.isEmpty_eq_true, if_neg hne, holdEmpty,
      doingRelease, List.nil_append]
    rw [if_neg (by simp [hne])]
    simp only [nextRelease]
    rw [drainReleases_eq]
    have hmap : holdData.map (moveConvert .globalscope) ≠ [] := by
      simp [hne]
    have := dropLast_append_getLastD (holdData.map (moveConvert .globalscope))
      (FunctionData.ofToken Token.noToken "NONE") hmap
    calc (holdData.map (moveConvert .globalscope)).getLastD
          (FunctionData.ofToken Token.noToken "NONE") ::
          ((holdData.map (moveConvert .globalscope)).dropLast).reverse
        = ((holdData.map (moveConvert .globalscope)).dropLast ++
            [(holdData.map (moveConvert .globalscope)).getLastD
              (FunctionData.ofToken Token.noToken "NONE")]).reverse := by
          rw [List.reverse_append]; rfl
      _ = (holdData.map (moveConvert .globalscope)).reverse := by rw [this]

/-- Witness for C10: two held calls of `f` and one of `g`; releasing `f`
yields the two `f` records back-to-front and keeps `g` held. -/
theorem release_batches_lifo_witness :
    (drainReleases (releaseHold
        ⟨[(sampleCall, "m1"), (sampleCall, "m2"),
          (⟨"g", ⟨"a.c", 5⟩, .functcall, .noscope, .nomod⟩, "m3")], []⟩
        sampleDecl)).1 =
      [moveConvert .globalscope (sampleCall, "m2"),
       moveConvert .globalscope (sampleCall, "m1")] := by
  have h := (release_batches_lifo
    [(sampleCall, "m1"), (sampleCall, "m2"),
     (⟨"g", ⟨"a.c", 5⟩, .functcall, .noscope, .nomod⟩, "m3")]
    sampleDecl rfl).1
  rw [h]
  decide

/-- C7: the local-name collection is cleared if and only if the recognizer
dispatches a close brace while `brace_count` equals 1 — equivalently,
exactly when the brace count transitions from positive (local scope) to
zero (global scope). -/
theorem clearsLocals_iff (t : TokenType) (n : Nat) :
    ((braceDispatch t n).clearsLocals = true ↔ t = .closebrace ∧ n = 1) ∧
    ((braceDispatch t n).clearsLocals = true ↔
      0 < n ∧ (braceDispatch t n).braceCount = 0) := by
  constructor
  · cases t <;> simp [braceDispatch]
  · cases t <;> simp only [braceDispatch, decide_eq_true_eq,
      Bool.false_eq_true, false_iff] <;> first
      | (split_ifs <;> omega)
      | omega

/-! Search-primitive lemmas. -/

/-- No character satisfies `p` exactly when the search fails. -/
theorem findFirstIdxP_eq_none_iff (p : Char → Bool) (l : List Char) :
    findFirstIdxP p l = none ↔ ∀ c ∈ l, p c = false := by
  induction l with
  | nil => simp [findFirstIdxP]
  | cons c cs ih =>
    by_cases h : p c
    · simp [findFirstIdxP, h]
    · simp only [findFirstIdxP, if_neg h, Option.map_eq_none', ih,
        List.mem_cons]
      constructor
      · intro ha x hx
        rcases hx with hx | hx
        · subst hx; simpa using h
        · exact ha x hx
      · intro ha x hx
        exact ha x (Or.inr hx)

/-- Unfolding equation of `findFirstIdxP` on a cons cell. -/
theorem findFirstIdxP_cons (p : Char → Bool) (c : Char) (cs : List Char) :
    findFirstIdxP p (c :: cs) =
      if p c then some 0 else (findFirstIdxP p cs).map (· + 1) := rfl

/-- Searching past a prefix of failures shifts the index. -/
theorem findFirstIdxP_append_false (p : Char → Bool) (a b : List Char)
    (h : ∀ c ∈ a, p c = false) :
    findFirstIdxP p (a ++ b) = (findFirstIdxP p b).map (· + a.length) := by
  induction a with
  | nil => simp
  | cons c cs ih =>
    have hc : p c = false := h c (by simp)
    rw [List.cons_append, findFirstIdxP_cons, if_neg (by simp [hc]),
      ih (fun x hx => h x (by simp [hx]))]
    cases findFirstIdxP p b <;> simp <;> omega

/-- The first hit after a prefix of failures is at the prefix length. -/
theorem findFirstIdxP_spot (p : Char → Bool) (a : List Char) (c : Char)
    (b : List Char) (ha : ∀ x ∈ a, p x = false) (hc : p c = true) :
    findFirstIdxP p (a ++ c :: b) = some a.length := by
  rw [findFirstIdxP_append_false p a _ ha]
  simp [findFirstIdxP, hc]

/-- A successful search splits the list at the found index. -/
theorem findFirstIdxP_eq_some (p : Char → Bool) (l : List Char) (i : Nat)
    (h : findFirstIdxP p l = some i) :
    ∃ a c b, l = a ++ c :: b ∧ a.length = i ∧
      (∀ x ∈ a, p x = false) ∧ p c = true := by
  induction l generalizing i with
  | nil => simp [findFirstIdxP] at h
  | cons c cs ih =>
    by_cases hc : p c
    · simp only [findFirstIdxP, if_pos hc, Option.some.injEq] at h
      exact ⟨[], c, cs, by simp, by simp [← h], by simp, hc⟩
    · simp only [findFirstIdxP, if_neg hc, Option.map_eq_some'] at h
      obtain ⟨j, hj, hji⟩ := h
      obtain ⟨a, d, b, hl, hlen, hall, hd⟩ := ih j hj
      refine ⟨c :: a, d, b, by simp [hl], by simp [hlen, ← hji], ?_, hd⟩
      intro x hx
      rcases List.mem_cons.mp hx with hx | hx
      · subst hx; simpa using hc
      · exact hall x hx

/-- Model of `getD` at the split point of a decomposition. -/
theorem getD_append_length (a : List Char) (c : Char) (b : List Char)
    (d : Char) : (a ++ c :: b).getD a.length d = c := by
  induction a with
  | nil => simp
  | cons x xs ih => simpa using ih

/-- The head dropped by `dropWhile` fails the predicate. -/
theorem dropWhile_cons_head (p : Char → Bool) (l : List Char) (c : Char)
    (t : List Char) (h : l.dropWhile p = c :: t) : p c = false := by
  induction l with
  | nil => simp at h
  | cons x xs ih =>
    by_cases hx : p x
    · rw [List.dropWhile_cons_of_pos hx] at h
      exact ih h
    · rw [List.dropWhile_cons_of_neg hx] at h
      cases h
      simpa using hx

/-- Taking a prefix of known length from an append. -/
theorem take_append_eq_left (a b : List Char) (n : Nat) (h : a.length = n) :
    (a ++ b).take n = a := by
  subst h; simp

/-- Dropping a prefix of known length from an append. -/
theorem drop_append_eq_right (a b : List Char) (n : Nat) (h : a.length = n) :
    (a ++ b).drop n = b := by
  subst h; simp

/-- Model of `findLastNotOf` on a reversed list searches the original front to
back. -/
theorem findLastNotOf_reverse (r : List Char) (member : Char → Bool) :
    findLastNotOf r.reverse member =
      match findFirstIdxP (fun c => !(member c)) r with
      | none => none
      | some i => some (r.length - 1 - i) := by
  simp [findLastNotOf]

/-- Core of C6, stated over the reversed line. -/
theorem getEscNewline_reverse_aux (r : List Char) :
    (getEscNewline r.reverse true).isSome =
      (((r.dropWhile isSpaceTab).takeWhile (fun c => c == '\\')).length % 2 == 1) := by
  rcases hk : r.dropWhile isSpaceTab with _ | ⟨c, t⟩
  · have hnone : findFirstIdxP (fun c => !(isSpaceTab c)) r = none := by
      rw [findFirstIdxP_eq_none_iff]
      intro x hx
      simp [List.dropWhile_eq_nil_iff.mp hk x hx]
    simp [getEscNewline, findLastNotOf_reverse, hnone]
  · have hc : isSpaceTab c = false := dropWhile_cons_head isSpaceTab r c t hk
    have hsplit : r = r.takeWhile isSpaceTab ++ c :: t := by
      conv_lhs => rw [← List.takeWhile_append_dropWhile (p := isSpaceTab) (l := r)]
      rw [hk]
    have hwsall : ∀ x ∈ r.takeWhile isSpaceTab,
        (fun c => !(isSpaceTab c)) x = false := by
      intro x hx
      simp [List.mem_takeWhile_imp hx]
    have hffip : findFirstIdxP (fun c => !(isSpaceTab c)) r =
        some (r.takeWhile isSpaceTab).length := by
      conv_lhs => rw [hsplit]
      exact findFirstIdxP_spot _ _ c t hwsall (by simp [hc])
    have hlen : r.length = (r.takeWhile isSpaceTab).length + 1 + t.length := by
      conv_lhs => rw [hsplit]
      simp
      omega
    have h1 : findLastNotOf r.reverse isSpaceTab = some t.length := by
      rw [findLastNotOf_reverse, hffip]
      show some (r.length - 1 - (r.takeWhile isSpaceTab).length) = some t.length
      congr 1
      omega
    have hbuf : r.reverse = (t.reverse ++ [c]) ++ (r.takeWhile isSpaceTab).reverse := by
      conv_lhs => rw [hsplit]
      simp
    have hgd : r.reverse.getD t.length ' ' = c := by
      rw [hbuf, List.append_assoc]
      have := getD_append_length t.reverse c ((r.takeWhile isSpaceTab).reverse) ' '
      simpa using this
    by_cases hcbs : c = '\\'
    · subst hcbs
      have htake : r.reverse.take (t.length + 1) = t.reverse ++ ['\\'] := by
        rw [hbuf]
        exact take_append_eq_left _ _ _ (by simp)
      have hrev2 : (t.reverse ++ ['\\']).reverse = '\\' :: t := by simp
      rcases hm : t.dropWhile (fun c => c == '\\') with _ | ⟨d, t2⟩
      · -- the whole tail is backslashes
        have htall : ∀ x ∈ t, x = '\\' := by
          intro x hx
          simpa using List.dropWhile_eq_nil_iff.mp hm x hx
        have hinner : findFirstIdxP (fun x => !(x == '\\')) ('\\' :: t) = none := by
          rw [findFirstIdxP_eq_none_iff]
          intro x hx
          rcases List.mem_cons.mp hx with hx | hx
          · simp [hx]
          · simp [htall x hx]
        have h2 : findLastNotOfUpTo r.reverse (fun c => c == '\\') t.length = none := by
          unfold findLastNotOfUpTo
          rw [htake]
          unfold findLastNotOf
          rw [hrev2, hinner]
        have htw : t.takeWhile (fun c => c == '\\') = t := by
          conv_rhs => rw [← List.takeWhile_append_dropWhile
            (p := fun c => c == '\\') (l := t)]
          rw [hm, List.append_nil]
        have hL : getEscNewline r.reverse true =
            (if (t.length + 1) % 2 = 1 then some t.length else none) := by
          unfold getEscNewline
          rw [h1]
          show (if r.reverse.getD t.length ' ' ≠ '\\' then none
            else if ¬ (true : Bool) then some t.length
            else match findLastNotOfUpTo r.reverse (fun c => c == '\\') t.length with
              | none => if (t.length + 1) % 2 = 1 then some t.length else none
              | some testPos =>
                if (t.length - testPos) % 2 = 1 then some t.length else none) = _
          rw [hgd, if_neg (by simp), if_neg (by simp), h2]
        rw [hL, List.takeWhile_cons_of_pos (by simp), htw]
        by_cases hp : (t.length + 1) % 2 = 1
        · simp [hp]
        · simp [hp, beq_iff_eq, List.length_cons]
      · -- a non-backslash occurs before the run
        have hd : (d == '\\') = false :=
          dropWhile_cons_head (fun c => c == '\\') t d t2 hm
        have htsplit : t = t.takeWhile (fun c => c == '\\') ++ d :: t2 := by
          conv_lhs => rw [← List.takeWhile_append_dropWhile
            (p := fun c => c == '\\') (l := t)]
          rw [hm]
        have hbsall : ∀ x ∈ t.takeWhile (fun c => c == '\\'),
            (fun x => !(x == '\\')) x = false := by
          intro x hx
          have := List.mem_takeWhile_imp hx
          simpa using this
        have hinner : findFirstIdxP (fun x => !(x == '\\')) ('\\' :: t) =
            some ((t.takeWhile (fun c => c == '\\')).length + 1) := by
          rw [findFirstIdxP_cons, if_neg (by simp)]
          conv_lhs => rw [htsplit]
          rw [findFirstIdxP_spot _ _ d t2 hbsall (by simp [hd])]
          rfl
        have htlen : t.length =
            (t.takeWhile (fun c => c == '\\')).length + 1 + t2.length := by
          conv_lhs => rw [htsplit]
          simp
          omega
        have h2 : findLastNotOfUpTo r.reverse (fun c => c == '\\') t.length =
            some t2.length := by
          unfold findLastNotOfUpTo
          rw [htake]
          unfold findLastNotOf
          rw [hrev2, hinner]
          show some ((t.reverse ++ ['\\']).length - 1 -
            ((t.takeWhile (fun c => c == '\\')).length + 1)) = some t2.length
          congr 1
          simp
          omega
        have hL : getEscNewline r.reverse true =
            (if (t.length - t2.length) % 2 = 1 then some t.length else none) := by
          unfold getEscNewline
          rw [h1]
          show (if r.reverse.getD t.length ' ' ≠ '\\' then none
            else if ¬ (true : Bool) then some t.length
            else match findLastNotOfUpTo r.reverse (fun c => c == '\\') t.length with
              | none => if (t.length + 1) % 2 = 1 then some t.length else none
              | some testPos =>
                if (t.length - testPos) % 2 = 1 then some t.length else none) = _
          rw [hgd, if_neg (by simp), if_neg (by simp), h2]
        have hcount : t.length - t2.length =
            (t.takeWhile (fun c => c == '\\')).length + 1 := by
          omega
        rw [hL, hcount, List.takeWhile_cons_of_pos (by simp)]
        by_cases hp : ((t.takeWhile (fun c => c == '\\')).length + 1) % 2 = 1
        · simp [hp]
        · simp [hp, beq_iff_eq, List.length_cons]
    · -- last non-space character is not a backslash: no continuation
      have hL : getEscNewline r.reverse true = none := by
        unfold getEscNewline
        rw [h1]
        show (if r.reverse.getD t.length ' ' ≠ '\\' then none
          else if ¬ (true : Bool) then some t.length
          else match findLastNotOfUpTo r.reverse (fun c => c == '\\') t.length with
            | none => if (t.length + 1) % 2 = 1 then some t.length else none
            | some testPos =>
              if (t.length - testPos) % 2 = 1 then some t.length else none) = _
        rw [hgd, if_pos hcbs]
      rw [hL, List.takeWhile_cons_of_neg (by simp [hcbs])]
      simp

/-- C6: inside a string literal the end-of-line test reports a line
continuation exactly when the number of consecutive backslashes ending
the line (after ignoring trailing spaces and tabs) is odd; an even
number is a literal trailing backslash and reports no continuation. -/
theorem escNewline_parity (buffer : List Char) :
    hasEscNewline buffer true = (trailingBackslashCount buffer % 2 == 1) := by
  have h := getEscNewline_reverse_aux buffer.reverse
  rw [List.reverse_reverse] at h
  simpa [hasEscNewline, trailingBackslashCount] using h

/-- Distinct characters compare unequal under `==`. -/
theorem spaceTab_beq_false (x c : Char) (hx : isSpaceTab x = true)
    (hc : isSpaceTab c = false) : (x == c) = false := by
  by_cases h : x = c
  · subst h; rw [hx] at hc; cases hc
  · simp [h]

/-- Digits are not whitespace. -/
theorem digit_not_spaceTab (x : Char) (h : isDigitChar x = true) :
    isSpaceTab x = false := by
  rcases hsp : isSpaceTab x with _ | _
  · rfl
  · exfalso
    simp only [isSpaceTab, Bool.or_eq_true, beq_iff_eq] at hsp
    rcases hsp with h1 | h1 <;> subst h1 <;> exact absurd h (by decide)

/-- Whitespace characters are not digits. -/
theorem spaceTab_not_digit (x : Char) (h : isSpaceTab x = true) :
    isDigitChar x = false := by
  rcases hd : isDigitChar x with _ | _
  · rfl
  · rw [digit_not_spaceTab x hd] at h; cases h

/-- Model of `find_first_not_of` lands on the first character outside the set. -/
theorem findFirstNotOfFrom_spot (line P a : List Char) (c : Char)
    (b : List Char) (member : Char → Bool) (start : Nat)
    (hline : line = P ++ (a ++ c :: b)) (hP : P.length = start)
    (ha : ∀ x ∈ a, member x = true) (hc : member c = false) :
    findFirstNotOfFrom line member start = some (a.length + start) := by
  unfold findFirstNotOfFrom
  rw [hline, drop_append_eq_right P _ start hP,
    findFirstIdxP_spot _ a c b (fun x hx => by simp [ha x hx]) (by simp [hc])]
  rfl

/-- Model of `find_first_of` lands on the first occurrence of the target. -/
theorem findFirstOfFrom_spot (line P a : List Char) (c : Char)
    (b : List Char) (target : Char) (start : Nat)
    (hline : line = P ++ (a ++ c :: b)) (hP : P.length = start)
    (ha : ∀ x ∈ a, (x == target) = false) (hc : (c == target) = true) :
    findFirstOfFrom line target start = some (a.length + start) := by
  unfold findFirstOfFrom
  rw [hline, drop_append_eq_right P _ start hP,
    findFirstIdxP_spot _ a c b ha hc]
  rfl

/-- Model of `operator[]` through a known decomposition. -/
theorem getD_spot (line P : List Char) (c : Char) (b : List Char) (n : Nat)
    (hline : line = P ++ c :: b) (hP : P.length = n) (d : Char) :
    line.getD n d = c := by
  subst hP; rw [hline]; exact getD_append_length P c b d

/-- Model of `substr` through a known decomposition. -/
theorem substr_spot (line P mid b : List Char) (start len : Nat)
    (hline : line = P ++ (mid ++ b)) (hP : P.length = start)
    (hlen : mid.length = len) :
    substrList line start len = mid := by
  subst hP; subst hlen
  unfold substrList
  rw [hline, drop_append_eq_right P _ _ rfl, take_append_eq_left _ _ _ rfl]

/-- On a line of the claim's directive shape, the extraction scan succeeds
and returns the quoted path and the decremented line number. -/
theorem extractLocation_directive (line ds p : List Char)
    (h : IsLineDirective line ds p) :
    extractLocation line = some (p, (atoiDigits ds : Int) - 1) := by
  obtain ⟨ws1, ws2, ws3, hline, hw1, hw2, hw3, hds, hdig, hp, hq⟩ := h
  obtain ⟨d0, ds', rfl⟩ : ∃ d0 ds', ds = d0 :: ds' := by
    cases ds with
    | nil => exact absurd rfl hds
    | cons a b => exact ⟨a, b, rfl⟩
  have hd0 : isDigitChar d0 = true := hdig d0 (by simp)
  have step1 : findFirstOfFrom line '#' 0 = some ws1.length := by
    have := findFirstOfFrom_spot line [] ws1 '#'
      (ws2 ++ (d0 :: ds') ++ ws3 ++ '"' :: (p ++ ['"'])) '#' 0
      (by rw [hline]; simp) rfl
      (fun x hx => spaceTab_beq_false x '#' (hw1 x hx) (by decide))
      (by decide)
    simpa using this
  have step2 : burnSpaces line (ws1.length + 1) =
      some (ws1.length + 1 + ws2.length) := by
    have := findFirstNotOfFrom_spot line (ws1 ++ ['#']) ws2 d0
      (ds' ++ ws3 ++ '"' :: (p ++ ['"'])) isSpaceTab (ws1.length + 1)
      (by rw [hline]; simp) (by simp)
      (fun x hx => hw2 x hx) (digit_not_spaceTab d0 hd0)
    rw [burnSpaces, this]
    congr 1
    omega
  have hgd1 : line.getD (ws1.length + 1 + ws2.length) ' ' = d0 := by
    refine getD_spot line (ws1 ++ '#' :: ws2) d0
      (ds' ++ ws3 ++ '"' :: (p ++ ['"'])) _ (by rw [hline]; simp) ?_ ' '
    simp
    omega
  have step4 : findFirstNotOfFrom line isDigitChar (ws1.length + 1 + ws2.length) =
      some (ws1.length + 1 + ws2.length + (ds'.length + 1)) := by
    rcases hws3 : ws3 with _ | ⟨w, ws3t⟩
    · have := findFirstNotOfFrom_spot line (ws1 ++ '#' :: ws2) (d0 :: ds') '"'
        (p ++ ['"']) isDigitChar (ws1.length + 1 + ws2.length)
        (by rw [hline, hws3]; simp) (by simp; omega)
        (fun x hx => hdig x (by simpa using hx)) (by decide)
      rw [this]
      congr 1
      simp
      omega
    · have := findFirstNotOfFrom_spot line (ws1 ++ '#' :: ws2) (d0 :: ds') w
        (ws3t ++ '"' :: (p ++ ['"'])) isDigitChar (ws1.length + 1 + ws2.length)
        (by rw [hline, hws3]; simp) (by simp; omega)
        (fun x hx => hdig x (by simpa using hx))
        (spaceTab_not_digit w (hw3 w (by simp [hws3])))
      rw [this]
      congr 1
      simp
      omega
  have hsub1 : substrList line (ws1.length + 1 + ws2.length)
      (ws1.length + 1 + ws2.length + (ds'.length + 1) - (ws1.length + 1 + ws2.length)) =
      d0 :: ds' := by
    have harith : ws1.length + 1 + ws2.length + (ds'.length + 1) -
        (ws1.length + 1 + ws2.length) = ds'.length + 1 := by omega
    rw [harith]
    exact substr_spot line (ws1 ++ '#' :: ws2) (d0 :: ds')
      (ws3 ++ '"' :: (p ++ ['"'])) _ _ (by rw [hline]; simp)
      (by simp; omega) (by simp)
  have step5 : burnSpaces line (ws1.length + 1 + ws2.length + (ds'.length + 1)) =
      some (ws1.length + 1 + ws2.length + (ds'.length + 1) + ws3.length) := by
    have := findFirstNotOfFrom_spot line (ws1 ++ '#' :: ws2 ++ d0 :: ds') ws3 '"'
      (p ++ ['"']) isSpaceTab
      (ws1.length + 1 + ws2.length + (ds'.length + 1))
      (by rw [hline]; simp) (by simp; omega)
      (fun x hx => hw3 x hx) (by decide)
    rw [burnSpaces, this]
    congr 1
    omega
  have hgd2 : line.getD
      (ws1.length + 1 + ws2.length + (ds'.length + 1) + ws3.length) ' ' = '"' := by
    refine getD_spot line (ws1 ++ '#' :: ws2 ++ d0 :: ds' ++ ws3) '"'
      (p ++ ['"']) _ (by rw [hline]; simp) ?_ ' '
    simp
    omega
  have step7 : findFirstOfFrom line '"'
      (ws1.length + 1 + ws2.length + (ds'.length + 1) + ws3.length + 1) =
      some (ws1.length + 1 + ws2.length + (ds'.length + 1) + ws3.length + 1 + p.length) := by
    have := findFirstOfFrom_spot line
      (ws1 ++ '#' :: ws2 ++ d0 :: ds' ++ ws3 ++ ['"']) p '"' [] '"'
      (ws1.length + 1 + ws2.length + (ds'.length + 1) + ws3.length + 1)
      (by rw [hline]; simp) (by simp; omega)
      (fun x hx => by
        have : x ≠ '"' := fun hxq => hq (hxq ▸ hx)
        simp [this])
      (by decide)
    rw [this]
    congr 1
    omega
  have hple : 0 < p.length := List.length_pos.mpr hp
  have step8 : ¬ (ws1.length + 1 + ws2.length + (ds'.length + 1) + ws3.length + 1 + p.length ≤
      ws1.length + 1 + ws2.length + (ds'.length + 1) + ws3.length + 1) := by
    omega
  have hsub2 : substrList line
      (ws1.length + 1 + ws2.length + (ds'.length + 1) + ws3.length + 1)
      (ws1.length + 1 + ws2.length + (ds'.length + 1) + ws3.length + 1 + p.length -
        (ws1.length + 1 + ws2.length + (ds'.length + 1) + ws3.length + 1)) = p := by
    have harith : ws1.length + 1 + ws2.length + (ds'.length + 1) + ws3.length + 1 + p.length -
        (ws1.length + 1 + ws2.length + (ds'.length + 1) + ws3.length + 1) = p.length := by
      omega
    rw [harith]
    exact substr_spot line (ws1 ++ '#' :: ws2 ++ d0 :: ds' ++ ws3 ++ ['"']) p
      ['"'] _ _ (by rw [hline]; simp) (by simp; omega) rfl
  have hlenline : line.length =
      ws1.length + 1 + ws2.length + (ds'.length + 1) + ws3.length + 1 + p.length + 1 := by
    rw [hline]
    simp
    omega
  have heq : ws1.length + 1 + ws2.length + (ds'.length + 1) + ws3.length + 1 + p.length + 1 =
      line.length := by
    rw [hlenline]
  simp only [extractLocation, step1, step2, hgd1, hd0, if_true, step4, hsub1,
    step5, hgd2, if_pos rfl, step7, if_neg step8, hsub2, if_pos heq]

/-- A directive-shaped line ends in its closing quote, so it never
carries an escaped newline. -/
theorem hasEscNewline_directive (line ds p : List Char)
    (h : IsLineDirective line ds p) : hasEscNewline line false = false := by
  obtain ⟨ws1, ws2, ws3, hline, hw1, hw2, hw3, hds, hdig, hp, hq⟩ := h
  have hlineA : line = (ws1 ++ '#' :: ws2 ++ ds ++ ws3 ++ '"' :: p) ++ ['"'] := by
    rw [hline]
    simp
  have hrev : line.reverse =
      '"' :: (ws1 ++ '#' :: ws2 ++ ds ++ ws3 ++ '"' :: p).reverse := by
    rw [hlineA]
    simp
  have hffip : findFirstIdxP (fun c => !(isSpaceTab c)) line.reverse =
      some 0 := by
    rw [hrev]
    have := findFirstIdxP_spot (fun c => !(isSpaceTab c)) [] '"'
      ((ws1 ++ '#' :: ws2 ++ ds ++ ws3 ++ '"' :: p).reverse)
      (by simp) (by decide)
    simpa using this
  have h1 : findLastNotOf line isSpaceTab = some (line.length - 1) := by
    unfold findLastNotOf
    rw [hffip]
    simp
  have hidx : line.length - 1 =
      (ws1 ++ '#' :: ws2 ++ ds ++ ws3 ++ '"' :: p).length := by
    rw [hlineA]
    simp
    omega
  have hgd : line.getD ((ws1 ++ '#' :: ws2 ++ ds ++ ws3 ++ '"' :: p).length) ' ' = '"' :=
    getD_spot line _ '"' [] _ hlineA rfl ' '
  unfold hasEscNewline getEscNewline
  rw [h1]
  show ((if line.getD (line.length - 1) ' ' ≠ '\\' then none
    else if ¬ (false : Bool) then some (line.length - 1)
    else match findLastNotOfUpTo line (fun c => c == '\\')
        (line.length - 1) with
      | none => if (line.length - 1 + 1) % 2 = 1
          then some (line.length - 1) else none
      | some testPos => if (line.length - 1 - testPos) % 2 = 1
          then some (line.length - 1) else none) : Option Nat).isSome
    = false
  rw [hidx, hgd, if_pos (by decide)]
  rfl

/-- On a line of the claim's directive shape, `handlePreproc` resets the
source coordinate and prints no warning. -/
theorem handlePreproc_directive (line ds p : List Char) (pos : FilePosition)
    (h : IsLineDirective line ds p) :
    handlePreproc line pos false =
      ⟨⟨String.mk p, (atoiDigits ds : Int) - 1⟩, false, false⟩ := by
  unfold handlePreproc
  rw [hasEscNewline_directive line ds p h, extractLocation_directive line ds p h]
  rfl

/-- A successful extraction only happens on lines of the directive shape:
some prefix with no hash, a hash, whitespace, digits, whitespace, and the
quoted non-empty name whose closing quote ends the line. -/
theorem extractLocation_shape (line f : List Char) (n : Int)
    (h : extractLocation line = some (f, n)) :
    ∃ pre ws2 ds ws3,
      line = pre ++ '#' :: (ws2 ++ ds ++ ws3 ++ '"' :: (f ++ ['"'])) ∧
      (∀ x ∈ pre, (x == '#') = false) ∧
      (∀ x ∈ ws2, isSpaceTab x = true) ∧
      ds ≠ [] ∧ (∀ x ∈ ds, isDigitChar x = true) ∧
      (∀ x ∈ ws3, isSpaceTab x = true) ∧
      f ≠ [] ∧ '"' ∉ f ∧
      n = (atoiDigits ds : Int) - 1 := by
  unfold extractLocation at h
  split at h
  · exact Option.noConfusion h
  rename_i hashPos h1
  split at h
  · exact Option.noConfusion h
  rename_i start h2
  split at h
  case isFalse => exact Option.noConfusion h
  rename_i hdigit
  split at h
  · exact Option.noConfusion h
  rename_i e h4
  split at h
  · exact Option.noConfusion h
  rename_i s2 h5
  split at h
  case isFalse => exact Option.noConfusion h
  rename_i hquote
  split at h
  · exact Option.noConfusion h
  rename_i e2 h7
  split at h
  case isTrue => exact Option.noConfusion h
  rename_i hgt
  -- now take the step equations apart
  obtain ⟨i, hffip1, hhash⟩ := Option.map_eq_some'.mp h1
  rw [List.drop_zero] at hffip1
  obtain ⟨pre, c1, R0, hR0, hprelen, hpreh, hc1⟩ :=
    findFirstIdxP_eq_some _ _ _ hffip1
  have hc1e : c1 = '#' := by simpa using hc1
  subst hc1e
  have hhashv : hashPos = pre.length := by omega
  obtain ⟨j, hffip2, hstart⟩ := Option.map_eq_some'.mp h2
  have hd1 : line.drop (hashPos + 1) = R0 := by
    have hline0 : line = (pre ++ ['#']) ++ R0 := by rw [hR0]; simp
    rw [hline0]
    exact drop_append_eq_right _ _ _ (by simp; omega)
  rw [hd1] at hffip2
  obtain ⟨ws2, c2, R1, hR0b, hws2len, hws2sp, hc2⟩ :=
    findFirstIdxP_eq_some _ _ _ hffip2
  have hws2sp2 : ∀ x ∈ ws2, isSpaceTab x = true := by
    intro x hx
    have := hws2sp x hx
    simpa using this
  have hstartv : start = hashPos + 1 + ws2.length := by omega
  obtain ⟨j2, hffip4, he⟩ := Option.map_eq_some'.mp h4
  have hd2 : line.drop start = c2 :: R1 := by
    have hline1 : line = ((pre ++ ['#']) ++ ws2) ++ (c2 :: R1) := by
      rw [hR0, hR0b]; simp
    rw [hline1]
    exact drop_append_eq_right _ _ _ (by simp; omega)
  rw [hd2] at hffip4
  obtain ⟨dsa, c3, R2, hdsb, hdslen, hdsdig, hc3⟩ :=
    findFirstIdxP_eq_some _ _ _ hffip4
  have hdsdig2 : ∀ x ∈ dsa, isDigitChar x = true := by
    intro x hx
    have := hdsdig x hx
    simpa using this
  have hc3nd : isDigitChar c3 = false := by simpa using hc3
  have hgd1 : line.getD start ' ' = c2 := by
    refine getD_spot line ((pre ++ ['#']) ++ ws2) c2 R1 start ?_ (by simp; omega) ' '
    rw [hR0, hR0b]; simp
  have hc2dig : isDigitChar c2 = true := by
    rw [hgd1] at hdigit
    exact hdigit
  have hdsne : dsa ≠ [] := by
    intro hnil
    rw [hnil] at hdsb
    simp at hdsb
    rw [hdsb.1] at hc2dig
    rw [hc2dig] at hc3nd
    exact Bool.noConfusion hc3nd
  have hev : e = start + dsa.length := by omega
  obtain ⟨j3, hffip5, hs2⟩ := Option.map_eq_some'.mp h5
  have hd3 : line.drop e = c3 :: R2 := by
    have hline2 : line = ((pre ++ ['#']) ++ ws2 ++ dsa) ++ (c3 :: R2) := by
      rw [hR0, hR0b, hdsb]; simp
    rw [hline2]
    exact drop_append_eq_right _ _ _ (by simp; omega)
  rw [hd3] at hffip5
  obtain ⟨ws3a, c4, R3, hws3b, hws3len, hws3sp, hc4⟩ :=
    findFirstIdxP_eq_some _ _ _ hffip5
  have hws3sp2 : ∀ x ∈ ws3a, isSpaceTab x = true := by
    intro x hx
    have := hws3sp x hx
    simpa using this
  have hs2v : s2 = e + ws3a.length := by omega
  have hgd2 : line.getD s2 ' ' = c4 := by
    refine getD_spot line ((pre ++ ['#']) ++ ws2 ++ dsa ++ ws3a) c4 R3 s2 ?_
      (by simp; omega) ' '
    rw [hR0, hR0b, hdsb, hws3b]; simp
  have hc4q : c4 = '"' := by
    rw [hgd2] at hquote
    exact hquote
  subst hc4q
  obtain ⟨j4, hffip7, he2⟩ := Option.map_eq_some'.mp h7
  have hd4 : line.drop (s2 + 1) = R3 := by
    have hline3 : line = ((pre ++ ['#']) ++ ws2 ++ dsa ++ ws3a ++ ['"']) ++ R3 := by
      rw [hR0, hR0b, hdsb, hws3b]; simp
    rw [hline3]
    exact drop_append_eq_right _ _ _ (by simp; omega)
  rw [hd4] at hffip7
  obtain ⟨fa, c5, R4, hfab, hfalen, hfanq, hc5⟩ :=
    findFirstIdxP_eq_some _ _ _ hffip7
  have hc5e : c5 = '"' := by simpa using hc5
  subst hc5e
  have hfanq2 : '"' ∉ fa := by
    intro hx
    have := hfanq '"' hx
    simp at this
  have he2v : e2 = s2 + 1 + fa.length := by omega
  have hfane : fa ≠ [] := by
    intro hnil
    rw [hnil] at hfalen
    simp at hfalen
    omega
  have hsub1 : substrList line start (e - start) = dsa := by
    have harith : e - start = dsa.length := by omega
    rw [harith]
    unfold substrList
    rw [hd2, hdsb]
    exact take_append_eq_left _ _ _ rfl
  have hsub2 : substrList line (s2 + 1) (e2 - (s2 + 1)) = fa := by
    have harith : e2 - (s2 + 1) = fa.length := by omega
    rw [harith]
    unfold substrList
    rw [hd4, hfab]
    exact take_append_eq_left _ _ _ rfl
  have hline4 : line = pre ++ '#' :: (ws2 ++ dsa ++ ws3a ++ '"' :: (fa ++ '"' :: R4)) := by
    rw [hR0, hR0b, hdsb, hws3b, hfab]
    simp
  rw [hsub1] at h
  split at h
  · -- the closing quote is the last character on the line
    rename_i hlast
    rw [hsub2] at h
    have hl : line.length = e2 + 1 + R4.length := by
      conv_lhs => rw [hline4]
      simp
      omega
    have hR4nil : R4 = [] := by
      have : R4.length = 0 := by omega
      exact List.length_eq_zero.mp this
    subst hR4nil
    simp only [Option.some.injEq, Prod.mk.injEq] at h
    obtain ⟨hf, hn⟩ := h
    subst hf
    exact ⟨pre, ws2, dsa, ws3a, hline4, hpreh, hws2sp2, hdsne, hdsdig2,
      hws3sp2, hfane, hfanq2, hn.symm⟩
  · -- anything after the closing quote makes haveLocation false
    exact Option.noConfusion h

/-- Two hash-free prefixes in front of the same first hash coincide. -/
theorem hash_prefix_unique (a : List Char) (x : List Char) (b y : List Char)
    (h : a ++ '#' :: x = b ++ '#' :: y)
    (ha : ∀ c ∈ a, (c == '#') = false) (hb : ∀ c ∈ b, (c == '#') = false) :
    a = b := by
  induction a generalizing b with
  | nil =>
    cases b with
    | nil => rfl
    | cons d b2 =>
      simp only [List.nil_append, List.cons_append, List.cons.injEq] at h
      have := hb d (by simp)
      rw [← h.1] at this
      simp at this
  | cons c a2 ih =>
    cases b with
    | nil =>
      simp only [List.nil_append, List.cons_append, List.cons.injEq] at h
      have := ha c (by simp)
      rw [h.1] at this
      simp at this
    | cons d b2 =>
      simp only [List.cons_append, List.cons.injEq] at h
      rw [ih b2 h.2 (fun u hu => ha u (by simp [hu]))
        (fun u hu => hb u (by simp [hu])), h.1]

/-- C1 (amended): a preprocessed line of the form hash, digits `N`, quoted
path `F` whose closing quote is the very last character of the line
resets the authoritative source coordinate to `(F, N − 1)` without
warning — so that the increment performed when the next physical line is
read tags it `(F, N)`; a `#`-prefixed line of any other form on which the
extraction scan stays inside the line (including a directive with
trailing whitespace after the closing quote, and one carrying a trailing
backslash continuation) is consumed with a warning and leaves the
coordinate, hence the source file name, unchanged.  The scan positions
are `unsigned short`, so the length bound keeps every genuine position
distinct from the truncated `string::npos`. -/
theorem lineDirective_fidelity (line ds p sp rest : List Char)
    (pos : FilePosition) (hshort : line.length < 65535) :
    (IsLineDirective line ds p →
      handlePreproc line pos false =
        ⟨⟨String.mk p, (atoiDigits ds : Int) - 1⟩, false, false⟩ ∧
      FilePosition.incrLine ⟨String.mk p, (atoiDigits ds : Int) - 1⟩ =
        ⟨String.mk p, (atoiDigits ds : Int)⟩) ∧
    (line = sp ++ '#' :: rest → (∀ x ∈ sp, isSpaceTab x = true) →
      preprocScanInBounds line = true →
      (∀ ds2 p2, ¬ IsLineDirective line ds2 p2) →
      (handlePreproc line pos false).warning = true ∧
      (handlePreproc line pos false).bufferPosition = pos) := by
  constructor
  · intro h
    refine ⟨handlePreproc_directive line ds p pos h, ?_⟩
    simp [FilePosition.incrLine]
  · intro hline hsp hscan hnot
    unfold handlePreproc
    rcases hw : hasEscNewline line false with _ | _
    · rcases hex : extractLocation line with _ | ⟨f, num⟩
      · simp [hw, hex]
      · exfalso
        obtain ⟨pre, ws2, dsx, ws3, hline2, hpreh, hws2, hdsne, hdsdig,
          hws3, hfne, hfq, hnum⟩ := extractLocation_shape line f num hex
        have heq2 : pre ++ '#' :: (ws2 ++ dsx ++ ws3 ++ '"' :: (f ++ ['"'])) =
            sp ++ '#' :: rest := by
          rw [← hline2]
          exact hline
        have hpre_sp : pre = sp :=
          hash_prefix_unique pre _ sp rest heq2 hpreh
            (fun c hc => spaceTab_beq_false c '#' (hsp c hc) (by decide))
        exact hnot dsx f ⟨sp, ws2, ws3, by rw [hline2, hpre_sp],
          hsp, hws2, hws3, hdsne, hdsdig, hfne, hfq⟩
    · simp [hw]

/-- Counterexample for C1 as stated: a line directive followed by a
backslash continuation does not reset the source coordinate; the code
treats it as an unrecognized directive, printing the warning and leaving
the coordinate (here `("old.c", 7)`, not the claimed `("f.c", 4)`)
untouched. -/
theorem lineDirective_continuation_counterexample :
    handlePreproc ("# 5 \"f.c\" \\".data) ⟨"old.c", 7⟩ false =
      ⟨⟨"old.c", 7⟩, true, true⟩ ∧
    (FilePosition.mk "old.c" 7) ≠ ⟨"f.c", 4⟩ := by
  constructor
  · decide
  · decide

/-- Witness for C1: the directive `# 12 "foo.c"`, whose closing quote is
the last character on the line, resets the coordinate to `("foo.c", 11)`,
while `# 7 "g.c" ` — the same directive with one trailing space — warns
and changes nothing. -/
theorem lineDirective_fidelity_witness :
    ("# 12 \"foo.c\"".data).length < 65535 ∧
    handlePreproc ("# 12 \"foo.c\"".data) ⟨"x.c", 99⟩ false =
      ⟨⟨"foo.c", 11⟩, false, false⟩ ∧
    (handlePreproc ("# 7 \"g.c\" ".data) ⟨"x.c", 99⟩ false).warning = true ∧
    (handlePreproc ("# 7 \"g.c\" ".data) ⟨"x.c", 99⟩ false).bufferPosition =
      ⟨"x.c", 99⟩ := by
  refine ⟨by decide, ?_, ?_⟩
  · have hdir : IsLineDirective ("# 12 \"foo.c\"".data) "12".data "foo.c".data :=
      ⟨[], [' '], [' '], by decide, by decide, by decide, by decide,
        by decide, by decide, by decide, by decide⟩
    have h := (lineDirective_fidelity ("# 12 \"foo.c\"".data) "12".data
      "foo.c".data [] [] ⟨"x.c", 99⟩ (by decide)).1 hdir
    refine h.1.trans ?_
    decide
  · have hno : ∀ ds2 p2, ¬ IsLineDirective ("# 7 \"g.c\" ".data) ds2 p2 := by
      rintro ds2 p2 ⟨ws1, ws2, ws3, hline, -, -, -, -, -, -, -⟩
      have h2 : ("# 7 \"g.c\" ".data) =
          (ws1 ++ '#' :: (ws2 ++ ds2 ++ ws3 ++ '"' :: p2)) ++ ['"'] := by
        rw [hline]
        simp
      have h3 : ("# 7 \"g.c\" ".data).reverse =
          '"' :: (ws1 ++ '#' :: (ws2 ++ ds2 ++ ws3 ++ '"' :: p2)).reverse := by
        rw [h2]
        simp
      have h4 : ("# 7 \"g.c\" ".data).reverse.head? = some '"' := by
        rw [h3]
        rfl
      exact absurd h4 (by decide)
    exact (lineDirective_fidelity ("# 7 \"g.c\" ".data) [] [] []
      (" 7 \"g.c\" ".data) ⟨"x.c", 99⟩ (by decide)).2
      (by decide) (by decide) (by decide) hno

/-- Escape-set characters are not digits. -/
theorem escSimple_not_digit (e : Char) (h : isEscSimple e = true) :
    isDigitChar e = false := by
  simp only [isEscSimple, Bool.or_eq_true, beq_iff_eq] at h
  rcases h with ((((((((((h | h) | h) | h) | h) | h) | h) | h) | h) | h) | h) <;>
    subst h <;> decide

/-- Digits are outside the escape set. -/
theorem digit_not_escSimple (e : Char) (h : isDigitChar e = true) :
    isEscSimple e = false := by
  rcases hes : isEscSimple e with _ | _
  · rfl
  · rw [escSimple_not_digit e hes] at h
    exact Bool.noConfusion h

/-- Digits are not the letter `x`. -/
theorem digit_not_x (e : Char) (h : isDigitChar e = true) : ¬ e = 'x' := by
  intro hx
  subst hx
  exact absurd h (by decide)

/-- Handy decidable character facts for the scanner proof. -/
theorem digitChar_quote : isDigitChar '\'' = false := by decide

/-- The quote character is not an accepted hexadecimal digit. -/
theorem upperHex_quote : isUpperHex '\'' = false := by decide

/-- The letter `x` is not a digit. -/
theorem digitChar_x : isDigitChar 'x' = false := by decide

/-- Zero is a digit. -/
theorem digitChar_zero : isDigitChar '0' = true := by decide

/-- The letter `x` is not in the escape set. -/
theorem escSimple_x : isEscSimple 'x' = false := by decide

/-- Zero is not in the escape set. -/
theorem escSimple_zero : isEscSimple '0' = false := by decide

set_option maxHeartbeats 1600000 in
/-- C5 (amended): starting at a single quote, the lexer accepts a
character literal exactly for the forms of `charLitAccepts` — `'c'`,
`'\c'` with `c` in the escape set, `'\0'`, a backslash with exactly three
decimal digits, or `'\x'` with exactly two upper-case hexadecimal
digits — and every other single-quote sequence degrades to an
`othersymbol` token without any diagnostic. -/
theorem handleSinQuote_forms (buffer : List Char)
    (h : buffer.head? = some '\'') :
    handleSinQuote buffer = charLitAccepts buffer ∧
    (handleSinQuote buffer = none → handleSinQuoteType buffer = .othersymbol) := by
  obtain ⟨rest, rfl⟩ : ∃ rest, buffer = '\'' :: rest := by
    cases buffer with
    | nil => simp at h
    | cons a l =>
      simp only [List.head?_cons, Option.some.injEq] at h
      exact ⟨l, by rw [h]⟩
  refine ⟨?_, ?_⟩
  case refine_2 =>
    intro hn
    simp [handleSinQuoteType, hn, handleOtherCharsType, declChars]
  rcases rest with _ | ⟨c, rest2⟩
  · simp [handleSinQuote, handleSinQuoteLoop, charLitAccepts]
  by_cases hq : c = '\''
  · subst hq
    simp [handleSinQuote, handleSinQuoteLoop, charLitAccepts]
  by_cases hbs : c = '\\'
  · subst hbs
    rcases rest2 with _ | ⟨e, rest3⟩
    · simp [handleSinQuote, handleSinQuoteLoop, charLitAccepts]
    rcases rest3 with _ | ⟨f, rest4⟩
    · -- buffer is quote, backslash, e
      by_cases he0 : e = '0'
      · subst he0
        simp [handleSinQuote, handleSinQuoteLoop, charLitAccepts,
          digitChar_zero, escSimple_zero]
      by_cases hed : isDigitChar e = true
      · simp [handleSinQuote, handleSinQuoteLoop, charLitAccepts, he0, hed,
          digit_not_escSimple e hed]
      by_cases hex2 : e = 'x'
      · subst hex2
        simp [handleSinQuote, handleSinQuoteLoop, charLitAccepts,
          digitChar_x, escSimple_x]
      by_cases hes : isEscSimple e = true
      · simp [handleSinQuote, handleSinQuoteLoop, charLitAccepts, he0, hed,
          hex2, hes]
      · simp [handleSinQuote, handleSinQuoteLoop, charLitAccepts, he0, hed,
          hex2, hes]
    by_cases hf : f = '\''
    · subst hf
      by_cases he0 : e = '0'
      · subst he0
        simp [handleSinQuote, handleSinQuoteLoop, charLitAccepts,
          digitChar_zero, escSimple_zero, digitChar_quote, upperHex_quote]
      by_cases hed : isDigitChar e = true
      · simp [handleSinQuote, handleSinQuoteLoop, charLitAccepts, he0, hed,
          digit_not_escSimple e hed, digit_not_x e hed, digitChar_quote,
          upperHex_quote]
      by_cases hex2 : e = 'x'
      · subst hex2
        simp [handleSinQuote, handleSinQuoteLoop, charLitAccepts,
          digitChar_x, escSimple_x, digitChar_quote, upperHex_quote]
      by_cases hes : isEscSimple e = true
      · simp [handleSinQuote, handleSinQuoteLoop, charLitAccepts, he0, hed,
          hex2, hes, digitChar_quote, upperHex_quote]
      · simp [handleSinQuote, handleSinQuoteLoop, charLitAccepts, he0, hed,
          hex2, hes, digitChar_quote, upperHex_quote]
    rcases rest4 with _ | ⟨g, rest5⟩
    · -- quote, backslash, e, f with f not a quote
      simp [handleSinQuote, handleSinQuoteLoop, charLitAccepts, hf]
    rcases rest5 with _ | ⟨k, rest6⟩
    · -- quote, backslash, e, f, g with f not a quote
      simp [handleSinQuote, handleSinQuoteLoop, charLitAccepts, hf]
    -- at least four characters after the backslash, f not a quote
    by_cases hk : k = '\''
    all_goals
      first
      | (subst hk
         by_cases he0 : e = '0'
         · subst he0
           by_cases hfd : isDigitChar f = true
           · by_cases hgd : isDigitChar g = true
             · simp [handleSinQuote, handleSinQuoteLoop, charLitAccepts, hf,
                 hfd, hgd, digitChar_zero]
             · simp [handleSinQuote, handleSinQuoteLoop, charLitAccepts, hf,
                 hfd, hgd, digitChar_zero]
           · simp [handleSinQuote, handleSinQuoteLoop, charLitAccepts, hf,
               hfd, digitChar_zero]
         by_cases hed : isDigitChar e = true
         · by_cases hfd : isDigitChar f = true
           · by_cases hgd : isDigitChar g = true
             · simp [handleSinQuote, handleSinQuoteLoop, charLitAccepts, hf,
                 he0, hed, hfd, hgd, digit_not_x e hed]
             · simp [handleSinQuote, handleSinQuoteLoop, charLitAccepts, hf,
                 he0, hed, hfd, hgd, digit_not_x e hed]
           · simp [handleSinQuote, handleSinQuoteLoop, charLitAccepts, hf,
               he0, hed, hfd, digit_not_x e hed]
         by_cases hex2 : e = 'x'
         · subst hex2
           by_cases hfu : isUpperHex f = true
           · by_cases hgu : isUpperHex g = true
             · simp [handleSinQuote, handleSinQuoteLoop, charLitAccepts, hf,
                 hfu, hgu, digitChar_x]
             · simp [handleSinQuote, handleSinQuoteLoop, charLitAccepts, hf,
                 hfu, hgu, digitChar_x]
           · simp [handleSinQuote, handleSinQuoteLoop, charLitAccepts, hf,
               hfu, digitChar_x]
         by_cases hes : isEscSimple e = true
         · simp [handleSinQuote, handleSinQuoteLoop, charLitAccepts, hf,
             he0, hed, hex2, hes]
         · simp [handleSinQuote, handleSinQuoteLoop, charLitAccepts, hf,
             he0, hed, hex2, hes])
      | (by_cases he0 : e = '0'
         · subst he0
           by_cases hfd : isDigitChar f = true
           · by_cases hgd : isDigitChar g = true
             · simp [handleSinQuote, handleSinQuoteLoop, charLitAccepts, hf,
                 hk, hfd, hgd, digitChar_zero]
             · simp [handleSinQuote, handleSinQuoteLoop, charLitAccepts, hf,
                 hk, hfd, hgd, digitChar_zero]
           · simp [handleSinQuote, handleSinQuoteLoop, charLitAccepts, hf,
               hk, hfd, digitChar_zero]
         by_cases hed : isDigitChar e = true
         · by_cases hfd : isDigitChar f = true
           · by_cases hgd : isDigitChar g = true
             · simp [handleSinQuote, handleSinQuoteLoop, charLitAccepts, hf,
                 hk, he0, hed, hfd, hgd, digit_not_x e hed]
             · simp [handleSinQuote, handleSinQuoteLoop, charLitAccepts, hf,
                 hk, he0, hed, hfd, hgd, digit_not_x e hed]
           · simp [handleSinQuote, handleSinQuoteLoop, charLitAccepts, hf,
               hk, he0, hed, hfd, digit_not_x e hed]
         by_cases hex2 : e = 'x'
         · subst hex2
           by_cases hfu : isUpperHex f = true
           · by_cases hgu : isUpperHex g = true
             · simp [handleSinQuote, handleSinQuoteLoop, charLitAccepts, hf,
                 hk, hfu, hgu, digitChar_x]
             · simp [handleSinQuote, handleSinQuoteLoop, charLitAccepts, hf,
                 hk, hfu, hgu, digitChar_x]
           · simp [handleSinQuote, handleSinQuoteLoop, charLitAccepts, hf,
               hk, hfu, digitChar_x]
         by_cases hes : isEscSimple e = true
         · simp [handleSinQuote, handleSinQuoteLoop, charLitAccepts, hf,
             hk, he0, hed, hex2, hes]
         · simp [handleSinQuote, handleSinQuoteLoop, charLitAccepts, hf,
             hk, he0, hed, hex2, hes])
  -- ordinary character after the quote
  rcases rest2 with _ | ⟨d, rest3⟩
  · simp [handleSinQuote, handleSinQuoteLoop, charLitAccepts, hq, hbs]
  by_cases hd : d = '\''
  · subst hd
    simp [handleSinQuote, handleSinQuoteLoop, charLitAccepts, hq, hbs]
  · simp [handleSinQuote, handleSinQuoteLoop, charLitAccepts, hq, hbs, hd]

/-- Counterexample for C5 as stated: `'\5'` is a backslash followed by
one octal digit — a form the claim says is accepted — but the scanner
rejects it and the sequence degrades to `othersymbol`. -/
theorem handleSinQuote_counterexample :
    charLitClaimForm ("'\\5'".data) = true ∧
    handleSinQuote ("'\\5'".data) = none ∧
    handleSinQuoteType ("'\\5'".data) = .othersymbol :=
  ⟨by decide, by decide, by decide⟩

/-- Witness for C5: a well-formed `'a'` is matched by the form table, and
an unterminated `'ab` degrades to `othersymbol`. -/
theorem handleSinQuote_forms_witness :
    handleSinQuote ("'a'".data) = charLitAccepts ("'a'".data) ∧
    handleSinQuoteType ("'ab".data) = .othersymbol :=
  ⟨(handleSinQuote_forms ("'a'".data) (by decide)).1,
   (handleSinQuote_forms ("'ab".data) (by decide)).2 (by decide)⟩

/-- C8: `checkForSymbol` looks the lexeme up in keywords, then locals,
then globals.  A keyword always supplies the meaning; a lexeme found
nowhere gets scope `noscope`; a global non-variable (function-like)
entry supplies its scope — except a file-scope prototype, which yields
`noscope` because its final scope is not yet known. -/
theorem checkForSymbol_spec (ns : NameSpaceState) (t : Token) :
    (∀ k, findTok ns.keyList t.lexeme = some k →
      checkForSymbol ns t = t.setToTokenMeaning k) ∧
    (findTok ns.keyList t.lexeme = none →
      findTok ns.localList t.lexeme = none →
      findTok ns.globalList t.lexeme = none →
      checkForSymbol ns t = t.setScope .noscope) ∧
    (∀ g, findTok ns.keyList t.lexeme = none →
      (findTok ns.localList t.lexeme = none ∨
        ∃ l, findTok ns.localList t.lexeme = some l ∧ l.type ≠ .typetoken) →
      findTok ns.globalList t.lexeme = some g →
      haveTypeToken g = false → haveVarToken g = false →
      (g.type = .functproto ∧ g.scope = .filescope →
        checkForSymbol ns t = t.setScope .noscope) ∧
      (¬ (g.type = .functproto ∧ g.scope = .filescope) →
        checkForSymbol ns t = t.setScope g.scope)) := by
  refine ⟨?_, ?_, ?_⟩
  · intro k hk
    simp [checkForSymbol, hk]
  · intro h1 h2 h3
    simp [checkForSymbol, checkGlobal, h1, h2, h3]
  · intro g h1 h2 h3 h4 h5
    constructor
    · intro ⟨hp, hs⟩
      rcases h2 with h2 | ⟨l, hl, hlt⟩
      · simp [checkForSymbol, checkGlobal, h1, h2, h3, h4, h5, hp, hs]
      · simp [checkForSymbol, checkGlobal, h1, hl, hlt, h3, h4, h5, hp, hs]
    · intro hnot
      have hcase : g.type ≠ .functproto ∨ g.scope ≠ .filescope := by
        by_cases hp : g.type = .functproto
        · exact Or.inr (fun hs => hnot ⟨hp, hs⟩)
        · exact Or.inl hp
      rcases h2 with h2 | ⟨l, hl, hlt⟩
      · simp [checkForSymbol, checkGlobal, h1, h2, h3, h4, h5, hcase]
      · simp [checkForSymbol, checkGlobal, h1, hl, hlt, h3, h4, h5, hcase]

/-- Witness for C8: a file-scope prototype resolves to `noscope`, a
global declaration resolves to its scope, and an unknown name gets
`noscope`. -/
theorem checkForSymbol_spec_witness :
    checkForSymbol
        ⟨[], [⟨"f", ⟨"a.c", 1⟩, .functproto, .filescope, .nomod⟩], []⟩
        ⟨"f", ⟨"a.c", 8⟩, .identifier, .noscope, .nomod⟩ =
      Token.setScope ⟨"f", ⟨"a.c", 8⟩, .identifier, .noscope, .nomod⟩ .noscope ∧
    checkForSymbol
        ⟨[], [⟨"g", ⟨"a.c", 2⟩, .functdecl, .globalscope, .nomod⟩], []⟩
        ⟨"g", ⟨"a.c", 9⟩, .identifier, .noscope, .nomod⟩ =
      Token.setScope ⟨"g", ⟨"a.c", 9⟩, .identifier, .noscope, .nomod⟩
        .globalscope ∧
    checkForSymbol ⟨[], [], []⟩ ⟨"h", ⟨"a.c", 3⟩, .identifier, .noscope, .nomod⟩ =
      Token.setScope ⟨"h", ⟨"a.c", 3⟩, .identifier, .noscope, .nomod⟩ .noscope := by
  refine ⟨?_, ?_, ?_⟩
  · exact ((checkForSymbol_spec
      ⟨[], [⟨"f", ⟨"a.c", 1⟩, .functproto, .filescope, .nomod⟩], []⟩
      ⟨"f", ⟨"a.c", 8⟩, .identifier, .noscope, .nomod⟩).2.2
      ⟨"f", ⟨"a.c", 1⟩, .functproto, .filescope, .nomod⟩
      (by decide) (Or.inl (by decide)) (by decide) (by decide) (by decide)).1
      ⟨rfl, rfl⟩
  · exact ((checkForSymbol_spec
      ⟨[], [⟨"g", ⟨"a.c", 2⟩, .functdecl, .globalscope, .nomod⟩], []⟩
      ⟨"g", ⟨"a.c", 9⟩, .identifier, .noscope, .nomod⟩).2.2
      ⟨"g", ⟨"a.c", 2⟩, .functdecl, .globalscope, .nomod⟩
      (by decide) (Or.inl (by decide)) (by decide) (by decide) (by decide)).2
      (by decide)
  · exact (checkForSymbol_spec ⟨[], [], []⟩
      ⟨"h", ⟨"a.c", 3⟩, .identifier, .noscope, .nomod⟩).2.1
      (by decide) (by decide) (by decide)
